import Mathlib

/-!
# Verification of the mcp-lens server connection runtime

Shallow embedding of the MCP Lens extension's connection runtime:

* `src/utils/mcpClient.ts` — the `MCPClient` class (JSON-RPC over stdio:
  request correlation, stream framing, timeouts, lifecycle).
* `src/utils/mcpControl.ts` — the `runningProcesses` registry
  (`startMCPServer`, `stopMCPServer`, …).
* `src/providers/mcpWebviewProvider.ts` — the `mcpClients` registry and the
  webview message handlers (`startMCP`, `stopMCP`, `fetchToolsForMCP`,
  `saveEnvironment`).

JavaScript `Map`s are modelled as association lists, promises as explicit
settlement events returned by each operation, and the child process as a
boolean liveness flag (plus identity counters where process identity
matters).  `JSON.parse` is kept abstract (a parameter of type
`List Char → Option JsonRpcResponse`): the claims below never depend on the
JSON grammar itself, only on whether a line is parsed at all.
-/

/-- The `id` field of an incoming frame, as inspected by
`MCPClient.handleResponse` (`'id' in response && typeof response.id === 'number'`):
a numeric id, a present-but-non-numeric id, or no id field at all. -/
inductive RpcId : Type
  | num (n : Int)
  | nonNumeric
  | absent
deriving Repr, DecidableEq

/-- The `error` member of a JSON-RPC response (`{code, message}`;
the optional `data` blob is irrelevant to every claim and omitted). -/
structure RpcError : Type where
  code : Int
  message : String
deriving Repr, DecidableEq

/-- An incoming JSON-RPC frame as typed in `mcpClient.ts`
(`interface JsonRpcResponse`): `id`, optional `result`, optional `error`.
The `result` payload is opaque to the correlation layer and modelled as an
uninterpreted string. -/
structure JsonRpcResponse : Type where
  id : RpcId
  result : Option String
  error : Option RpcError
deriving Repr, DecidableEq

/-- How a caller's promise for one request is settled. -/
inductive Outcome : Type
  | resolved (resp : JsonRpcResponse)
  | rejectedNotStarted
  | rejectedTimeout
deriving Repr, DecidableEq

/-- A settlement event: the pending request id (or the would-be id) together
with the outcome delivered to its caller. -/
abbrev Settlement := Int × Outcome

/-- One message written to the child process stdin
(`JSON.stringify(request) + '\n'`): the method name and the embedded id
(`none` for notifications, which carry no id). -/
structure WireMsg : Type where
  method : String
  id : Option Int
deriving Repr, DecidableEq

/-- The mutable fields of `MCPClient`: `requestId` (the id counter),
`pendingRequests` (modelled as the list of in-flight ids, in insertion
order; the resolve/reject handles become the `Settlement` events each
operation returns), `buffer` (the partial-line carry-over), and whether
`this.process` is set (spawned and not yet cleaned up). -/
structure ClientState : Type where
  requestId : Int
  pending : List Int
  buffer : List Char
  hasProcess : Bool
deriving Repr, DecidableEq

/-- A fresh `MCPClient` (`requestId = 0`, empty map, empty buffer,
no process). -/
def freshClient : ClientState :=
  ⟨0, [], [], false⟩

/-- The synchronous part of `MCPClient.start`: `spawn(...)` assigns
`this.process` (stdout/stderr/exit observers are wired; the handshake is
issued afterwards via `sendRequestStep`). -/
def spawnStep (s : ClientState) : ClientState :=
  { s with hasProcess := true }

/-- Result of `MCPClient.sendRequest` as seen by its caller before any
response arrives: immediately rejected (`'Process not started'`) or sent
with the assigned id. -/
inductive SendResult : Type
  | rejectedNotStarted
  | sent (id : Int)
deriving Repr, DecidableEq

/-- `MCPClient.sendRequest(method, params)`: if `this.process?.stdin` is
absent, reject immediately and write nothing; otherwise assign
`id = ++this.requestId`, insert the pending entry, and write the request
envelope to stdin.  Note: the only guard is process existence — nothing in
the source checks that the initialization handshake has completed. -/
def sendRequestStep (s : ClientState) (method : String) :
    ClientState × SendResult × List WireMsg :=
  if s.hasProcess then
    let id := s.requestId + 1
    ({ s with requestId := id, pending := s.pending ++ [id] },
      SendResult.sent id, [⟨method, some id⟩])
  else
    (s, SendResult.rejectedNotStarted, [])

/-- `MCPClient.sendNotification(method, params)`: writes the envelope
(without id) when a process exists; otherwise throws.  No pending entry is
created either way. -/
def sendNotificationStep (s : ClientState) (method : String) :
    ClientState × List WireMsg :=
  if s.hasProcess then (s, [⟨method, none⟩]) else (s, [])

/-- `MCPClient.handleResponse(response)`: if the frame has a numeric `id`
matching a pending entry, delete the entry and resolve that caller with the
whole frame; otherwise do nothing. -/
def handleResponse (s : ClientState) (resp : JsonRpcResponse) :
    ClientState × List Settlement :=
  match resp.id with
  | RpcId.num n =>
      if n ∈ s.pending then
        ({ s with pending := s.pending.erase n }, [(n, Outcome.resolved resp)])
      else (s, [])
  | _ => (s, [])

/-- The body of the `setTimeout` callback installed by `sendRequest` for
request `id`: if the id is still pending, delete it and reject with
`'Request timeout'`; otherwise do nothing. -/
def timeoutFire (s : ClientState) (id : Int) : ClientState × List Settlement :=
  if id ∈ s.pending then
    ({ s with pending := s.pending.erase id }, [(id, Outcome.rejectedTimeout)])
  else (s, [])

/-- `MCPClient.cleanup()`: `pendingRequests.clear()`, reset the buffer,
drop the process handle.  The source clears the map without calling any
pending entry's `reject`. -/
def cleanup (s : ClientState) : ClientState :=
  { s with pending := [], buffer := [], hasProcess := false }

/-- `MCPClient.stop()`: if a process exists, kill it and run `cleanup`.
The returned settlements are the promise settlements this operation
performs — the source performs none (`cleanup` only clears the map). -/
def stopStep (s : ClientState) : ClientState × List Settlement :=
  if s.hasProcess then (cleanup s, []) else (s, [])

/-- The `process.on('exit', …)` observer: logs and runs `cleanup`.
Like `stop`, it settles no pending promise. -/
def processExitStep (s : ClientState) : ClientState × List Settlement :=
  (cleanup s, [])

/-- Numeric id carried by a frame, if any. -/
def frameIdNum (resp : JsonRpcResponse) : Option Int :=
  match resp.id with
  | RpcId.num n => some n
  | _ => none

/-- Feeding a sequence of incoming frames to `handleResponse` in arrival
order, accumulating the settlements. -/
def processFrames (s : ClientState) : List JsonRpcResponse → ClientState × List Settlement
  | [] => (s, [])
  | f :: fs =>
      let p := handleResponse s f
      let q := processFrames p.1 fs
      (q.1, p.2 ++ q.2)

/-! ## Stream framing (`MCPClient.handleStdout`) -/

/-- JavaScript `buffer.split('\n')`. -/
def frameSplit (l : List Char) : List (List Char) :=
  l.splitOn '\n'

/-- One `handleStdout` framing step on raw data:
`this.buffer += data; const lines = this.buffer.split('\n');
this.buffer = lines.pop() || '';` — returns the complete lines and the new
carry-over buffer. -/
def frameStep (buf data : List Char) : List (List Char) × List Char :=
  let parts := frameSplit (buf ++ data)
  (parts.dropLast, parts.getLastD [])

/-- Feeding a list of stdout chunks through `frameStep` in arrival order,
accumulating the complete lines; returns them with the final carry-over
buffer. -/
def feedChunks (buf : List Char) : List (List Char) → List (List Char) × List Char
  | [] => ([], buf)
  | c :: cs =>
      let p := frameStep buf c
      let q := feedChunks p.2 cs
      (p.1 ++ q.1, q.2)

/-- The whitespace characters stripped by JavaScript `String.prototype.trim`
(restricted to the ASCII range, which is all that can occur in the claims'
inputs). -/
def isJsWhitespace (c : Char) : Bool :=
  c == ' ' || c == '\t' || c == '\n' || c == '\r' || c == '\x0b' || c == '\x0c'

/-- JavaScript `line.trim()`. -/
def jsTrim (l : List Char) : List Char :=
  ((l.dropWhile isJsWhitespace).reverse.dropWhile isJsWhitespace).reverse

/-- The per-line body of `handleStdout`'s loop: skip the line when
`line.trim()` is falsy; otherwise `JSON.parse` it and either dispatch the
frame to `handleResponse` or log a parse failure.  `parse` abstracts
`JSON.parse` + the structural cast; the third component counts parse
failures logged. -/
def processLine (parse : List Char → Option JsonRpcResponse)
    (s : ClientState) (line : List Char) : ClientState × List Settlement × Nat :=
  if jsTrim line = [] then (s, [], 0)
  else
    match parse line with
    | some resp =>
        let p := handleResponse s resp
        (p.1, p.2, 0)
    | none => (s, [], 1)

/-- `MCPClient.handleStdout(data)`: append to the buffer, split off the
complete lines, keep the remainder, then process each complete line. -/
def handleStdout (parse : List Char → Option JsonRpcResponse)
    (s : ClientState) (data : List Char) : ClientState × List Settlement × Nat :=
  let p := frameStep s.buffer data
  p.1.foldl
    (fun acc line =>
      let r := processLine parse acc.1 line
      (r.1, acc.2.1 ++ r.2.1, acc.2.2 + r.2.2))
    ({ s with buffer := p.2 }, [], 0)

/-- A parse function that accepts nothing; used to instantiate the abstract
`JSON.parse` parameter at concrete inputs where it is never reached. -/
def noParse : List Char → Option JsonRpcResponse :=
  fun _ => none

/-! ## Association-list model of JavaScript `Map` -/

/-- JavaScript `Map.prototype.set`: replace the value at an existing key in
place, else append a new binding. -/
def mapSet {β : Type} (k : String) (v : β) : List (String × β) → List (String × β)
  | [] => [(k, v)]
  | (k', v') :: m => if k' = k then (k, v) :: m else (k', v') :: mapSet k v m

/-- JavaScript `Map.prototype.get` (and `has`, via `isSome`). -/
def mapGet {β : Type} (k : String) : List (String × β) → Option β
  | [] => none
  | (k', v') :: m => if k' = k then some v' else mapGet k m

/-- JavaScript `Map.prototype.delete`: remove the binding for a key
(the first one; `Map` keys are unique). -/
def mapDelete {β : Type} (k : String) : List (String × β) → List (String × β)
  | [] => []
  | (k', v') :: m => if k' = k then m else (k', v') :: mapDelete k m

/-! ## The `mcpControl.ts` process registry -/

/-- Global state of `mcpControl.ts`: the `runningProcesses` map
(server name → process), with the host's spawn facility modelled by a
fresh-pid counter and the log of every pid ever spawned. -/
structure CtrlState : Type where
  nextPid : Nat
  runningProcesses : List (String × Nat)
  spawned : List Nat
deriving Repr, DecidableEq

/-- `startMCPServer(mcp)`: if `runningProcesses.has(mcp.name)`, warn and
return `false` with no other effect; otherwise spawn a fresh process,
insert it under the name, and return `true`. -/
def startMCPServer (w : CtrlState) (name : String) : CtrlState × Bool :=
  if (mapGet name w.runningProcesses).isSome then (w, false)
  else
    let pid := w.nextPid
    ({ nextPid := pid + 1,
       runningProcesses := mapSet name pid w.runningProcesses,
       spawned := w.spawned ++ [pid] }, true)

/-- The `childProcess.on('exit'|'error', …)` observers installed by
`startMCPServer`: both delete the name from `runningProcesses`. -/
def procGoneEvent (w : CtrlState) (name : String) : CtrlState :=
  { w with runningProcesses := mapDelete name w.runningProcesses }

/-- `stopMCPServer(mcp)`: absent → warn, `false`; present → kill, delete
the entry, `true`. -/
def stopMCPServer (w : CtrlState) (name : String) : CtrlState × Bool :=
  match mapGet name w.runningProcesses with
  | none => (w, false)
  | some _ =>
      ({ w with runningProcesses := mapDelete name w.runningProcesses }, true)

/-! ## The webview provider's client registry (`mcpWebviewProvider.ts`) -/

/-- One `MCPClient` instance created by the provider: its identity, the
server name it was spawned for, and whether its child process is still
alive (spawned and not yet stopped). -/
structure ClientConn : Type where
  clientId : Nat
  serverName : String
  alive : Bool
deriving Repr, DecidableEq

/-- Provider state: the `mcpClients` map (server name → client) plus the
log of every client ever created, with liveness. -/
structure ProvState : Type where
  nextClientId : Nat
  mcpClients : List (String × Nat)
  conns : List ClientConn
deriving Repr, DecidableEq

/-- The provider before any discovery. -/
def initialProv : ProvState :=
  ⟨0, [], []⟩

/-- Mark one client's process as stopped (`client.stop()`). -/
def killConn (cid : Nat) (cs : List ClientConn) : List ClientConn :=
  cs.map fun c => if c.clientId == cid then { c with alive := false } else c

/-- `fetchToolsForMCP(server)`: unconditionally construct a fresh
`MCPClient` and `start()` it (spawning a process).  On success
(`start` + `listTools` both succeed) cache it with
`mcpClients.set(server.name, client)` — replacing, not stopping, any
client previously registered under that name.  On failure, `client.stop()`
the new client and leave the registry untouched.  `success` abstracts the
outcome of the start/list round-trip. -/
def fetchToolsForMCP (w : ProvState) (name : String) (success : Bool) : ProvState :=
  let cid := w.nextClientId
  let conns := w.conns ++ [⟨cid, name, true⟩]
  if success then
    { nextClientId := cid + 1,
      mcpClients := mapSet name cid w.mcpClients,
      conns := conns }
  else
    { nextClientId := cid + 1,
      mcpClients := w.mcpClients,
      conns := killConn cid conns }

/-- `stopMCP(name)` (for an item that exists in the configuration lists):
if `mcpClients.get(name)` is present, stop that client and delete the
entry; otherwise only the item's status fields change. -/
def stopMCPProv (w : ProvState) (name : String) : ProvState :=
  match mapGet name w.mcpClients with
  | none => w
  | some cid =>
      { w with mcpClients := mapDelete name w.mcpClients,
               conns := killConn cid w.conns }

/-- The teardown phase of `loadMCPs()` (a refresh): stop every client in
`mcpClients.values()` and clear the map. -/
def refreshStopAll (w : ProvState) : ProvState :=
  { w with mcpClients := [],
           conns := (w.mcpClients.map Prod.snd).foldl
             (fun cs cid => killConn cid cs) w.conns }

/-- The provider operations reachable from webview messages: `startMCP`
(which is `fetchToolsForMCP` on the named item), `stopMCP`, and the
refresh teardown; `restartMCP` is literally `stopMCP` followed by
`startMCP` and is covered by sequences of these. -/
inductive ProvOp : Type
  | startOp (name : String) (success : Bool)
  | stopOp (name : String)
  | refreshOp
deriving Repr, DecidableEq

/-- Interpret one provider operation. -/
def provStep (w : ProvState) : ProvOp → ProvState
  | ProvOp.startOp n suc => fetchToolsForMCP w n suc
  | ProvOp.stopOp n => stopMCPProv w n
  | ProvOp.refreshOp => refreshStopAll w

/-- Run a sequence of provider operations. -/
def provRun (w : ProvState) (ops : List ProvOp) : ProvState :=
  ops.foldl provStep w

/-- Number of live client connections spawned for a given server name. -/
def liveConnsFor (w : ProvState) (name : String) : Nat :=
  (w.conns.filter fun c => c.serverName == name && c.alive).length

/-! ## The `MCPItem` record and the handlers that touch it -/

/-- The `MCPConfig` descriptor fields this core consumes: executable
command, argument list, environment overlay. -/
structure MCPConfig : Type where
  command : String
  args : List String
  env : List (String × String)
deriving Repr, DecidableEq

/-- An `MCPItem` with its runtime fields, as mutated by the provider. -/
structure MCPItemState : Type where
  name : String
  config : MCPConfig
  status : String
  tools : List String
  toolCount : Nat
  description : String
deriving Repr, DecidableEq

/-- The item-field assignments in `fetchToolsForMCP`'s success branch:
`server.tools`, `server.toolCount`, `server.status = 'running'`. -/
def fetchSuccessItem (i : MCPItemState) (tools : List String) : MCPItemState :=
  { i with tools := tools, toolCount := tools.length, status := "running" }

/-- The item-field assignments in `fetchToolsForMCP`'s catch branch:
`status = 'error'`, empty tools. -/
def fetchFailureItem (i : MCPItemState) : MCPItemState :=
  { i with status := "error", tools := [], toolCount := 0 }

/-- The item-field assignments in `stopMCP`:
`status = 'stopped'`, empty tools. -/
def stopItem (i : MCPItemState) : MCPItemState :=
  { i with status := "stopped", tools := [], toolCount := 0 }

/-- `saveEnvironment(name, isGlobal, env)` for a found item:
`mcp.config.env = env` — an in-place mutation of the configuration
descriptor. -/
def saveEnvironmentItem (i : MCPItemState) (env : List (String × String)) :
    MCPItemState :=
  { i with config := { i.config with env := env } }

/-! ## Frame Reader lemmas -/

theorem frameSplit_no_nl (l : List Char) (h : '\n' ∉ l) : frameSplit l = [l] := by
  unfold frameSplit List.splitOn
  refine List.splitOnP_eq_single _ _ ?_
  intro x hx
  simp only [beq_iff_eq]
  rintro rfl
  exact h hx

theorem frameSplit_first (msg rest : List Char) (h : '\n' ∉ msg) :
    frameSplit (msg ++ '\n' :: rest) = msg :: frameSplit rest := by
  unfold frameSplit List.splitOn
  refine List.splitOnP_first _ _ ?_ '\n' (by simp) rest
  intro x hx
  simp only [beq_iff_eq]
  rintro rfl
  exact h hx

theorem frameStep_no_nl (buf data : List Char) (h : '\n' ∉ buf ++ data) :
    frameStep buf data = ([], buf ++ data) := by
  unfold frameStep
  rw [frameSplit_no_nl _ h]
  rfl

theorem frameStep_complete (buf c msg u : List Char) (hm : '\n' ∉ msg)
    (hu : '\n' ∉ u) (heq : buf ++ c = msg ++ '\n' :: u) :
    frameStep buf c = ([msg], u) := by
  unfold frameStep
  rw [heq, frameSplit_first msg u hm, frameSplit_no_nl u hu]
  rfl

theorem feedChunks_no_nl (chunks : List (List Char)) :
    ∀ buf : List Char, '\n' ∉ buf ++ chunks.flatten →
      feedChunks buf chunks = ([], buf ++ chunks.flatten) := by
  induction chunks with
  | nil => intro buf h; simp [feedChunks]
  | cons c cs ih =>
      intro buf h
      have h1 : '\n' ∉ buf ++ c := by
        intro hx
        apply h
        rw [List.flatten_cons, ← List.append_assoc]
        exact List.mem_append_left _ hx
      have h2 : '\n' ∉ (buf ++ c) ++ cs.flatten := by
        rwa [List.append_assoc, ← List.flatten_cons]
      simp only [feedChunks]
      rw [frameStep_no_nl buf c h1, ih (buf ++ c) h2]
      simp [List.append_assoc]

/-- Splitting a list at its first newline: if `t ++ j = msg ++ '\n' :: rest`
with `msg` newline-free and `t` containing a newline, then `t` extends past
the newline. -/
theorem split_at_first_nl (msg : List Char) :
    ∀ t j rest : List Char, t ++ j = msg ++ '\n' :: rest → '\n' ∉ msg →
      '\n' ∈ t → ∃ u, t = msg ++ '\n' :: u ∧ u ++ j = rest := by
  induction msg with
  | nil =>
      intro t j rest heq _ hnt
      cases t with
      | nil => exact absurd hnt (List.not_mem_nil _)
      | cons c t' =>
          simp only [List.cons_append, List.nil_append, List.cons.injEq] at heq
          exact ⟨t', by simp [heq.1], heq.2⟩
  | cons a msg' ih =>
      intro t j rest heq hm hnt
      cases t with
      | nil => exact absurd hnt (List.not_mem_nil _)
      | cons c t' =>
          simp only [List.cons_append, List.cons.injEq] at heq
          have ha : a ≠ '\n' := fun e => hm (e ▸ List.mem_cons_self a msg')
          have hnt' : '\n' ∈ t' := by
            rcases List.mem_cons.mp hnt with h | h
            · exact absurd (heq.1 ▸ h.symm) ha
            · exact h
          obtain ⟨u, hu1, hu2⟩ :=
            ih t' j rest heq.2 (fun hx => hm (List.mem_cons_of_mem a hx)) hnt'
          exact ⟨u, by simp [heq.1, hu1], hu2⟩

theorem feedChunks_message (chunks : List (List Char)) :
    ∀ buf msg rest : List Char, '\n' ∉ buf → '\n' ∉ msg → '\n' ∉ rest →
      buf ++ chunks.flatten = msg ++ '\n' :: rest →
      feedChunks buf chunks = ([msg], rest) := by
  induction chunks with
  | nil =>
      intro buf msg rest hb hm hr heq
      rw [List.flatten_nil, List.append_nil] at heq
      exact absurd (by rw [heq]; exact List.mem_append_right msg (List.mem_cons_self _ _)) hb
  | cons c cs ih =>
      intro buf msg rest hb hm hr heq
      rw [List.flatten_cons, ← List.append_assoc] at heq
      by_cases hnl : '\n' ∈ buf ++ c
      · obtain ⟨u, hu1, hu2⟩ := split_at_first_nl msg (buf ++ c) cs.flatten rest heq hm hnl
        have hu : '\n' ∉ u := fun hx => hr (by rw [← hu2]; exact List.mem_append_left _ hx)
        have hq : feedChunks u cs = ([], u ++ cs.flatten) :=
          feedChunks_no_nl cs u (by rw [hu2]; exact hr)
        simp only [feedChunks]
        rw [frameStep_complete buf c msg u hm hu hu1, hq]
        simp [hu2]
      · simp only [feedChunks]
        rw [frameStep_no_nl buf c hnl, ih (buf ++ c) msg rest hnl hm hr heq]
        rfl

/-- C2: for every valid newline-terminated serialized message and every way
of splitting it (followed by any newline-free remainder) into chunks,
feeding the chunks to the Frame Reader in arrival order reconstructs
exactly one complete message equal to the original, and the remainder is
kept in the carry-over buffer. -/
theorem frameReader_reassembles_chunked_message (chunks : List (List Char))
    (msg rest : List Char) (hm : '\n' ∉ msg) (hr : '\n' ∉ rest)
    (hj : chunks.flatten = msg ++ '\n' :: rest) :
    feedChunks [] chunks = ([msg], rest) :=
  feedChunks_message chunks [] msg rest (List.not_mem_nil _) hm hr (by simpa using hj)

theorem frameReader_reassembles_chunked_message_witness :
    feedChunks [] [['a'], [], ['b', 'c', '\n', 'x'], ['y']] =
      ([['a', 'b', 'c']], ['x', 'y']) :=
  frameReader_reassembles_chunked_message [['a'], [], ['b', 'c', '\n', 'x'], ['y']]
    ['a', 'b', 'c'] ['x', 'y'] (by decide) (by decide) (by decide)

/-! ## Correlation lemmas -/

theorem frameIdNum_eq_some (resp : JsonRpcResponse) (n : Int)
    (h : frameIdNum resp = some n) : resp.id = RpcId.num n := by
  unfold frameIdNum at h
  cases hr : resp.id with
  | num m => rw [hr] at h; simp only [Option.some.injEq] at h; exact congrArg RpcId.num h
  | nonNumeric => rw [hr] at h; simp at h
  | absent => rw [hr] at h; simp at h

theorem handleResponse_hit (s : ClientState) (resp : JsonRpcResponse) (n : Int)
    (hid : resp.id = RpcId.num n) (hmem : n ∈ s.pending) :
    handleResponse s resp =
      ({ s with pending := s.pending.erase n }, [(n, Outcome.resolved resp)]) := by
  simp [handleResponse, hid, hmem]

theorem handleResponse_miss (s : ClientState) (resp : JsonRpcResponse) (n : Int)
    (hid : resp.id = RpcId.num n) (hmem : n ∉ s.pending) :
    handleResponse s resp = (s, []) := by
  simp [handleResponse, hid, hmem]

theorem handleResponse_no_numeric_id (s : ClientState) (resp : JsonRpcResponse)
    (hid : frameIdNum resp = none) : handleResponse s resp = (s, []) := by
  unfold handleResponse
  cases hr : resp.id with
  | num m => exfalso; unfold frameIdNum at hid; rw [hr] at hid; simp at hid
  | nonNumeric => simp
  | absent => simp

theorem processFrames_resolves_each (frames : List JsonRpcResponse) :
    ∀ s : ClientState, s.pending.Nodup → (frames.filterMap frameIdNum).Nodup →
      (∀ f ∈ frames, (frameIdNum f).isSome = true ∧ (frameIdNum f).getD 0 ∈ s.pending) →
      processFrames s frames =
        ({ s with pending := s.pending.diff (frames.filterMap frameIdNum) },
          frames.map fun f => ((frameIdNum f).getD 0, Outcome.resolved f)) := by
  induction frames with
  | nil => intro s _ _ _; simp [processFrames]
  | cons f fs ih =>
      intro s hnd hids hmem
      obtain ⟨hsome, hpend⟩ := hmem f (List.mem_cons_self f fs)
      obtain ⟨n, hn⟩ := Option.isSome_iff_exists.mp hsome
      have hgd : (frameIdNum f).getD 0 = n := by rw [hn]; rfl
      rw [hgd] at hpend
      have hfid : f.id = RpcId.num n := frameIdNum_eq_some f n hn
      have hfm : (f :: fs).filterMap frameIdNum = n :: fs.filterMap frameIdNum := by
        simp [List.filterMap_cons, hn]
      rw [hfm] at hids
      have hnotin : n ∉ fs.filterMap frameIdNum := (List.nodup_cons.mp hids).1
      have hrest : (fs.filterMap frameIdNum).Nodup := (List.nodup_cons.mp hids).2
      have hmem' : ∀ g ∈ fs, (frameIdNum g).isSome = true ∧
          (frameIdNum g).getD 0 ∈
            ({ s with pending := s.pending.erase n } : ClientState).pending := by
        intro g hg
        obtain ⟨hs, hp⟩ := hmem g (List.mem_cons_of_mem f hg)
        obtain ⟨m, hm'⟩ := Option.isSome_iff_exists.mp hs
        have hmg : (frameIdNum g).getD 0 = m := by rw [hm']; rfl
        rw [hmg] at hp
        have hmn : m ≠ n := by
          intro e
          exact hnotin (e ▸ List.mem_filterMap.mpr ⟨g, hg, hm'⟩)
        refine ⟨hs, ?_⟩
        rw [hmg]
        exact (List.mem_erase_of_ne hmn).mpr hp
      have hstep := handleResponse_hit s f n hfid hpend
      have hih := ih { s with pending := s.pending.erase n } (hnd.erase n) hrest hmem'
      simp only [processFrames]
      rw [hstep]
      simp only []
      rw [hih]
      simp [hfm, List.diff_cons, hgd]

/-- C3: for every set of concurrently outstanding requests on one
connection and every arrival order of their responses, each frame carrying
a numeric id matching a pending entry settles exactly that caller with
that frame and removes the entry; frames whose id matches no pending entry
or is absent/non-numeric change nothing. -/
theorem responses_correlated_by_id :
    (∀ (s : ClientState) (frames : List JsonRpcResponse),
        s.pending.Nodup → (frames.filterMap frameIdNum).Nodup →
        (∀ f ∈ frames,
          (frameIdNum f).isSome = true ∧ (frameIdNum f).getD 0 ∈ s.pending) →
        processFrames s frames =
          ({ s with pending := s.pending.diff (frames.filterMap frameIdNum) },
            frames.map fun f => ((frameIdNum f).getD 0, Outcome.resolved f))) ∧
    (∀ (s : ClientState) (resp : JsonRpcResponse) (n : Int),
        frameIdNum resp = some n → n ∉ s.pending →
        handleResponse s resp = (s, [])) ∧
    (∀ (s : ClientState) (resp : JsonRpcResponse),
        frameIdNum resp = none → handleResponse s resp = (s, [])) :=
  ⟨fun s frames hnd hids hmem => processFrames_resolves_each frames s hnd hids hmem,
   fun s resp n hid hmem => handleResponse_miss s resp n (frameIdNum_eq_some resp n hid) hmem,
   fun s resp hid => handleResponse_no_numeric_id s resp hid⟩

theorem responses_correlated_by_id_witness :
    processFrames ⟨8, [7, 8], [], true⟩
        [⟨RpcId.num 8, some "r8", none⟩, ⟨RpcId.num 7, some "r7", none⟩] =
      (⟨8, [], [], true⟩,
        [(8, Outcome.resolved ⟨RpcId.num 8, some "r8", none⟩),
         (7, Outcome.resolved ⟨RpcId.num 7, some "r7", none⟩)]) ∧
    handleResponse ⟨8, [7, 8], [], true⟩ ⟨RpcId.num 9, some "r9", none⟩ =
      (⟨8, [7, 8], [], true⟩, []) ∧
    handleResponse ⟨8, [7, 8], [], true⟩ ⟨RpcId.absent, none, none⟩ =
      (⟨8, [7, 8], [], true⟩, []) :=
  ⟨(responses_correlated_by_id.1 ⟨8, [7, 8], [], true⟩
      [⟨RpcId.num 8, some "r8", none⟩, ⟨RpcId.num 7, some "r7", none⟩]
      (by decide) (by decide) (by decide)).trans (by decide),
   responses_correlated_by_id.2.1 ⟨8, [7, 8], [], true⟩
      ⟨RpcId.num 9, some "r9", none⟩ 9 rfl (by decide),
   responses_correlated_by_id.2.2 ⟨8, [7, 8], [], true⟩
      ⟨RpcId.absent, none, none⟩ rfl⟩

/-- C4: a request whose response does not arrive within the timeout window
settles exactly once with the timeout rejection and its pending slot is
freed; a response carrying that same id arriving after the timeout finds no
pending entry and is discarded without effect (and a second timeout firing
is likewise a no-op). -/
theorem requestTimeout_settles_once (s : ClientState) (id : Int)
    (resp : JsonRpcResponse) (hnd : s.pending.Nodup) (hmem : id ∈ s.pending)
    (hid : frameIdNum resp = some id) :
    timeoutFire s id =
      ({ s with pending := s.pending.erase id }, [(id, Outcome.rejectedTimeout)]) ∧
    handleResponse (timeoutFire s id).1 resp = ((timeoutFire s id).1, []) ∧
    timeoutFire (timeoutFire s id).1 id = ((timeoutFire s id).1, []) := by
  have h1 : timeoutFire s id =
      ({ s with pending := s.pending.erase id }, [(id, Outcome.rejectedTimeout)]) := by
    unfold timeoutFire
    rw [if_pos hmem]
  have hout : id ∉ s.pending.erase id := fun hx =>
    ((List.Nodup.mem_erase_iff hnd).mp hx).1 rfl
  refine ⟨h1, ?_, ?_⟩
  · rw [h1]
    exact handleResponse_miss _ resp id (frameIdNum_eq_some resp id hid) hout
  · rw [h1]
    unfold timeoutFire
    rw [if_neg hout]

theorem requestTimeout_settles_once_witness :
    timeoutFire ⟨2, [1, 2], [], true⟩ 2 =
      ({ (⟨2, [1, 2], [], true⟩ : ClientState) with
          pending := [1, 2].erase 2 }, [(2, Outcome.rejectedTimeout)]) ∧
    handleResponse (timeoutFire ⟨2, [1, 2], [], true⟩ 2).1
        ⟨RpcId.num 2, some "late", none⟩ =
      ((timeoutFire ⟨2, [1, 2], [], true⟩ 2).1, []) ∧
    timeoutFire (timeoutFire ⟨2, [1, 2], [], true⟩ 2).1 2 =
      ((timeoutFire ⟨2, [1, 2], [], true⟩ 2).1, []) :=
  requestTimeout_settles_once ⟨2, [1, 2], [], true⟩ 2
    ⟨RpcId.num 2, some "late", none⟩ (by decide) (by decide) rfl

/-- C5 is refuted: in the reachable state right after `start` has spawned
the process and issued the handshake request (whose response, id 1, is
still pending, so the connection is not yet `Ready`), a `tools/list` call
is written to the wire instead of being rejected. -/
theorem calls_not_gated_on_handshake :
    1 ∈ (sendRequestStep (spawnStep freshClient) "initialize").1.pending ∧
    (sendRequestStep (sendRequestStep (spawnStep freshClient) "initialize").1
        "tools/list").2.1 = SendResult.sent 2 ∧
    (sendRequestStep (sendRequestStep (spawnStep freshClient) "initialize").1
        "tools/list").2.2 = [⟨"tools/list", some 2⟩] := by
  decide

/-- C5 amended: a call is rejected without any wire write precisely when
the connection has no live process/stdin; whenever a process exists the
request is written to the wire, with no gating on handshake completion. -/
theorem sendRequest_gated_only_on_process (s : ClientState) (method : String) :
    (s.hasProcess = false →
      sendRequestStep s method = (s, SendResult.rejectedNotStarted, [])) ∧
    (s.hasProcess = true →
      sendRequestStep s method =
        ({ s with
            requestId := s.requestId + 1
            pending := s.pending ++ [s.requestId + 1] },
          SendResult.sent (s.requestId + 1),
          [⟨method, some (s.requestId + 1)⟩])) := by
  constructor
  · intro h
    unfold sendRequestStep
    rw [h]
    rfl
  · intro h
    unfold sendRequestStep
    rw [h]
    rfl

theorem sendRequest_gated_only_on_process_witness :
    sendRequestStep freshClient "tools/list" =
      (freshClient, SendResult.rejectedNotStarted, []) ∧
    sendRequestStep (spawnStep freshClient) "tools/list" =
      ({ spawnStep freshClient with
          requestId := (spawnStep freshClient).requestId + 1
          pending := (spawnStep freshClient).pending ++ [(spawnStep freshClient).requestId + 1] },
        SendResult.sent ((spawnStep freshClient).requestId + 1),
        [⟨"tools/list", some ((spawnStep freshClient).requestId + 1)⟩]) :=
  ⟨(sendRequest_gated_only_on_process freshClient "tools/list").1 rfl,
   (sendRequest_gated_only_on_process (spawnStep freshClient) "tools/list").2 rfl⟩

/-- C1, evaluated at the failing input: `stop()` (and equally the process
exit observer) on a connection with pending requests 1, 2, 3 empties the
pending map but performs no rejection — the settlement list is empty, and
the timer callback that later fires for a cleared id also settles nothing,
so the callers' promises are never settled.  The spec requires all three
to be rejected with a `ProcessExit`-class failure. -/
theorem stop_clears_pending_without_settling :
    stopStep ⟨3, [1, 2, 3], [], true⟩ = (⟨3, [], [], false⟩, []) ∧
    processExitStep ⟨3, [1, 2, 3], [], true⟩ = (⟨3, [], [], false⟩, []) ∧
    timeoutFire ⟨3, [], [], false⟩ 1 = (⟨3, [], [], false⟩, []) := by
  decide

/-! ## Blank-line handling -/

theorem jsTrim_all_ws (ws : List Char)
    (h : ∀ c ∈ ws, isJsWhitespace c = true) : jsTrim ws = [] := by
  unfold jsTrim
  rw [List.dropWhile_eq_nil_iff.mpr h]
  rfl

/-- C10: a line between two terminators that is empty or whitespace-only is
silently skipped — the parse function is never consulted, nothing is
dispatched, no parse failure is counted, and the client state is unchanged;
likewise a whole stdout chunk consisting of one whitespace-only line leaves
the connection state exactly as it was. -/
theorem blank_line_skipped (parse : List Char → Option JsonRpcResponse)
    (s : ClientState) (line ws : List Char) (hline : jsTrim line = [])
    (hbuf : s.buffer = []) (hws : ∀ c ∈ ws, isJsWhitespace c = true)
    (hwn : '\n' ∉ ws) :
    processLine parse s line = (s, [], 0) ∧
    handleStdout parse s (ws ++ ['\n']) = (s, [], 0) := by
  constructor
  · unfold processLine
    rw [if_pos hline]
  · obtain ⟨rid, pend, buf, hpr⟩ := s
    simp only at hbuf
    subst hbuf
    unfold handleStdout
    have h1 : frameStep ([] : List Char) (ws ++ ['\n']) = ([ws], []) :=
      frameStep_complete [] (ws ++ ['\n']) ws [] hwn (List.not_mem_nil _) (by simp)
    simp only at h1 ⊢
    rw [h1]
    simp only [List.foldl_cons, List.foldl_nil]
    have h2 : processLine parse ⟨rid, pend, [], hpr⟩ ws =
        (⟨rid, pend, [], hpr⟩, [], 0) := by
      unfold processLine
      rw [if_pos (jsTrim_all_ws ws hws)]
    rw [h2]
    rfl

theorem blank_line_skipped_witness :
    processLine noParse freshClient [' ', '\t'] = (freshClient, [], 0) ∧
    handleStdout noParse freshClient ([' '] ++ ['\n']) = (freshClient, [], 0) :=
  blank_line_skipped noParse freshClient [' ', '\t'] [' ']
    (by decide) rfl (by decide) (by decide)

/-! ## Registry lemmas -/

theorem mapSet_of_mapGet_none {β : Type} (k : String) (v : β)
    (m : List (String × β)) (h : mapGet k m = none) :
    mapSet k v m = m ++ [(k, v)] := by
  induction m with
  | nil => rfl
  | cons p m ih =>
      obtain ⟨k', v'⟩ := p
      unfold mapGet at h
      unfold mapSet
      by_cases hk : k' = k
      · rw [if_pos hk] at h
        simp at h
      · rw [if_neg hk] at h
        rw [if_neg hk, ih h]
        rfl

theorem mapDelete_append_one {β : Type} (k : String) (v : β)
    (m : List (String × β)) (h : mapGet k m = none) :
    mapDelete k (m ++ [(k, v)]) = m := by
  induction m with
  | nil => simp [mapDelete]
  | cons p m ih =>
      obtain ⟨k', v'⟩ := p
      unfold mapGet at h
      by_cases hk : k' = k
      · rw [if_pos hk] at h
        simp at h
      · rw [if_neg hk] at h
        show mapDelete k ((k', v') :: (m ++ [(k, v)])) = (k', v') :: m
        unfold mapDelete
        rw [if_neg hk, ih h]

theorem mapSet_keys {β : Type} (k : String) (v : β) (m : List (String × β)) :
    (mapSet k v m).map Prod.fst =
      if k ∈ m.map Prod.fst then m.map Prod.fst
      else m.map Prod.fst ++ [k] := by
  induction m with
  | nil => simp [mapSet]
  | cons p m ih =>
      obtain ⟨k', v'⟩ := p
      unfold mapSet
      by_cases hk : k' = k
      · subst hk
        simp
      · rw [if_neg hk]
        simp only [List.map_cons]
        rw [ih]
        by_cases hm : k ∈ m.map Prod.fst
        · rw [if_pos hm, if_pos (List.mem_cons_of_mem _ hm)]
        · have hnk : k ∉ k' :: m.map Prod.fst := by
            intro hx
            rcases List.mem_cons.mp hx with h | h
            · exact hk h.symm
            · exact hm h
          rw [if_neg hm, if_neg hnk]
          rfl

theorem mapSet_keys_nodup {β : Type} (k : String) (v : β)
    (m : List (String × β)) (h : (m.map Prod.fst).Nodup) :
    ((mapSet k v m).map Prod.fst).Nodup := by
  rw [mapSet_keys]
  by_cases hm : k ∈ m.map Prod.fst
  · rw [if_pos hm]
    exact h
  · rw [if_neg hm]
    refine List.Nodup.append h (List.nodup_singleton k) ?_
    intro a ha hb
    rw [List.mem_singleton] at hb
    exact hm (hb ▸ ha)

theorem mapDelete_keys_sublist {β : Type} (k : String) (m : List (String × β)) :
    ((mapDelete k m).map Prod.fst).Sublist (m.map Prod.fst) := by
  induction m with
  | nil => simp [mapDelete]
  | cons p m ih =>
      obtain ⟨k', v'⟩ := p
      unfold mapDelete
      by_cases hk : k' = k
      · rw [if_pos hk]
        simp only [List.map_cons]
        exact List.sublist_cons_self _ _
      · rw [if_neg hk]
        simp only [List.map_cons]
        exact ih.cons₂ k'

theorem provStep_keys_nodup (w : ProvState) (op : ProvOp)
    (h : (w.mcpClients.map Prod.fst).Nodup) :
    ((provStep w op).mcpClients.map Prod.fst).Nodup := by
  cases op with
  | startOp n suc =>
      cases suc
      · simpa [provStep, fetchToolsForMCP] using h
      · simpa [provStep, fetchToolsForMCP] using
          mapSet_keys_nodup n w.nextClientId w.mcpClients h
  | stopOp n =>
      simp only [provStep, stopMCPProv]
      cases hg : mapGet n w.mcpClients with
      | none => exact h
      | some cid => exact (mapDelete_keys_sublist n w.mcpClients).nodup h
  | refreshOp => simp [provStep, refreshStopAll]

theorem provRun_keys_nodup (ops : List ProvOp) : ∀ w : ProvState,
    (w.mcpClients.map Prod.fst).Nodup →
    ((provRun w ops).mcpClients.map Prod.fst).Nodup := by
  induction ops with
  | nil => exact fun w h => h
  | cons op ops ih =>
      intro w h
      exact ih (provStep w op) (provStep_keys_nodup w op h)

/-- C6 is refuted: two consecutive `startMCP` messages for the same name
each run `fetchToolsForMCP`, which constructs and starts a new client with
no already-running check; the second `mcpClients.set` replaces the first
entry without stopping the first client, so two live client processes
spawned for the name "a" coexist. -/
theorem duplicate_start_two_live_clients :
    liveConnsFor (provRun initialProv
        [ProvOp.startOp "a" true, ProvOp.startOp "a" true]) "a" = 2 ∧
    (provRun initialProv
        [ProvOp.startOp "a" true, ProvOp.startOp "a" true]).conns =
      [⟨0, "a", true⟩, ⟨1, "a", true⟩] := by
  decide

/-- C6 amended: the `mcpClients` registry itself maps each server name to
at most one client in every reachable state (its keys stay duplicate-free
under every sequence of start/stop/restart/refresh operations); however a
start for an already-connected name spawns a second live client and
replaces the registry entry without stopping the first, so two live
spawned connections for one name can coexist (see the counterexample). -/
theorem registry_one_entry_per_name (ops : List ProvOp) :
    ((provRun initialProv ops).mcpClients.map Prod.fst).Nodup :=
  provRun_keys_nodup ops initialProv (by simp [initialProv])

/-- C7: `startMCPServer` on a name that is live in `runningProcesses` is
rejected (`false`) with no side effects: the whole registry state is
unchanged, the entry still maps to the same process, and nothing new was
spawned. -/
theorem duplicate_start_rejected_no_side_effects (w : CtrlState)
    (name : String) (pid : Nat)
    (h : mapGet name w.runningProcesses = some pid) :
    startMCPServer w name = (w, false) ∧
    mapGet name (startMCPServer w name).1.runningProcesses = some pid ∧
    (startMCPServer w name).1.spawned = w.spawned := by
  have hs : (mapGet name w.runningProcesses).isSome = true := by
    rw [h]
    rfl
  have h1 : startMCPServer w name = (w, false) := by
    unfold startMCPServer
    rw [if_pos hs]
  refine ⟨h1, ?_, ?_⟩
  · rw [h1]
    exact h
  · rw [h1]

theorem duplicate_start_rejected_no_side_effects_witness :
    startMCPServer ⟨5, [("a", 3)], [3]⟩ "a" = (⟨5, [("a", 3)], [3]⟩, false) ∧
    mapGet "a" (startMCPServer ⟨5, [("a", 3)], [3]⟩ "a").1.runningProcesses =
      some 3 ∧
    (startMCPServer ⟨5, [("a", 3)], [3]⟩ "a").1.spawned =
      (⟨5, [("a", 3)], [3]⟩ : CtrlState).spawned :=
  duplicate_start_rejected_no_side_effects ⟨5, [("a", 3)], [3]⟩ "a" 3 (by decide)

/-- C8: a failed start attempt inserts nothing.  In the provider,
`fetchToolsForMCP`'s catch branch leaves `mcpClients` untouched; in
`mcpControl`, a start whose process errors or exits has its eagerly
inserted entry deleted by the `error`/`exit` observer, so a name with no
prior live entry ends with no entry. -/
theorem failed_start_leaves_no_entry (w : ProvState) (v : CtrlState)
    (name : String) (hv : mapGet name v.runningProcesses = none) :
    (fetchToolsForMCP w name false).mcpClients = w.mcpClients ∧
    mapGet name
      (procGoneEvent (startMCPServer v name).1 name).runningProcesses = none := by
  constructor
  · rfl
  · have hs : (mapGet name v.runningProcesses).isSome = false := by
      rw [hv]
      rfl
    unfold startMCPServer
    rw [hs]
    simp only [Bool.false_eq_true, if_false]
    unfold procGoneEvent
    simp only []
    rw [mapSet_of_mapGet_none name v.nextPid v.runningProcesses hv,
        mapDelete_append_one name v.nextPid v.runningProcesses hv]
    exact hv

theorem failed_start_leaves_no_entry_witness :
    (fetchToolsForMCP initialProv "echo" false).mcpClients =
      initialProv.mcpClients ∧
    mapGet "echo"
      (procGoneEvent (startMCPServer ⟨0, [], []⟩ "echo").1
        "echo").runningProcesses = none :=
  failed_start_leaves_no_entry initialProv ⟨0, [], []⟩ "echo" rfl

/-- C9 is refuted: the `saveEnvironment` message handler mutates the
supplied configuration descriptor in place (`mcp.config.env = env`), so
the config is not identical before and after that operation. -/
theorem saveEnvironment_mutates_config :
    (saveEnvironmentItem
        ⟨"srv", ⟨"node", ["server.js"], [("A", "1")]⟩, "unknown", [], 0, ""⟩
        [("B", "2")]).config ≠
      (⟨"srv", ⟨"node", ["server.js"], [("A", "1")]⟩, "unknown", [], 0, ""⟩ :
        MCPItemState).config := by
  decide

/-- C9 amended: the start/stop/fetch handlers never touch the
configuration descriptor — command, args and env are identical before and
after — while the `saveEnvironment` handler replaces exactly the `env`
field of the config in place, leaving command and args unchanged. -/
theorem handlers_preserve_config_except_saveEnvironment (i : MCPItemState)
    (tools : List String) (env : List (String × String)) :
    (fetchSuccessItem i tools).config = i.config ∧
    (fetchFailureItem i).config = i.config ∧
    (stopItem i).config = i.config ∧
    (saveEnvironmentItem i env).config.command = i.config.command ∧
    (saveEnvironmentItem i env).config.args = i.config.args ∧
    (saveEnvironmentItem i env).config.env = env :=
  ⟨rfl, rfl, rfl, rfl, rfl, rfl⟩

/-! ## Supporting invariant: pending ids are fresh and duplicate-free -/

/-- Ids are handed out by `id = ++requestId`, so in every reachable client
state the pending list is duplicate-free and bounded by the counter; this
discharges the `Nodup` hypotheses of the correlation and timeout theorems
for reachable states. -/
theorem sendRequest_preserves_pending_invariant (s : ClientState)
    (method : String)
    (h : s.pending.Nodup ∧ ∀ n ∈ s.pending, n ≤ s.requestId) :
    (sendRequestStep s method).1.pending.Nodup ∧
    ∀ n ∈ (sendRequestStep s method).1.pending,
      n ≤ (sendRequestStep s method).1.requestId := by
  obtain ⟨hnd, hle⟩ := h
  unfold sendRequestStep
  cases hp : s.hasProcess
  · simp only [Bool.false_eq_true, if_false]
    exact ⟨hnd, hle⟩
  · simp only [if_true]
    constructor
    · refine List.Nodup.append hnd (List.nodup_singleton _) ?_
      intro a ha hb
      rw [List.mem_singleton] at hb
      have := hle a ha
      omega
    · intro n hn
      rcases List.mem_append.mp hn with h | h
      · have := hle n h
        omega
      · rw [List.mem_singleton] at h
        omega
